import Mathlib

/-
Verification of the response normalization and rendering pipeline of the
content-generator frontend (components/content-generator-form.tsx and
components/result-card.tsx).

The JavaScript/TypeScript code is shallowly embedded:
* JSON values (the untrusted `content` field and error bodies) become the
  inductive type `JVal`; JavaScript `typeof`, truthiness, property access and
  `String(...)` coercion are modelled by executable functions on `JVal`.
* `JSON.stringify(v, null, 2)` is modelled by `stringifyJ` (2-space pretty
  printer with ECMA-style string escaping).
* The two regex-based transformations are modelled at the `List Char` level,
  following ECMAScript regex semantics for the concrete patterns the code
  builds (multiline anchors, lazy quantifier, greedy optional `\n?`,
  first-match replace and global replace).
* Strings of the embedding are Lean `String`s; all definitions are
  executable so concrete runs of the code can be evaluated inside proofs.
-/

/-- JSON values, the shapes the untrusted `content` field can take. -/
inductive JVal where
  | null
  | bool (b : Bool)
  | num (n : Int)
  | str (s : String)
  | arr (xs : List JVal)
  | obj (fs : List (String × JVal))

/-- Lookup of a property on a JSON object field list. Objects produced by
JSON parsing have unique keys, so first-match lookup is faithful. -/
def jsLookup : List (String × JVal) → String → Option JVal
  | [], _ => none
  | (k, v) :: fs, key => if k = key then some v else jsLookup fs key

/-- JavaScript truthiness of a JSON value: `null`, `false`, `0` and the empty
string are falsy; arrays and objects are always truthy. -/
def jsTruthy : JVal → Bool
  | JVal.null => false
  | JVal.bool b => b
  | JVal.num n => n != 0
  | JVal.str s => s != ""
  | JVal.arr _ => true
  | JVal.obj _ => true

/-- Whether `typeof v === "object"` holds in JavaScript: true for objects,
arrays and `null`. -/
def typeofIsObject : JVal → Bool
  | JVal.obj _ => true
  | JVal.arr _ => true
  | JVal.null => true
  | _ => false

/-- Whether the value is JSON `null`. -/
def jsIsNull : JVal → Bool
  | JVal.null => true
  | _ => false

mutual

/-- JavaScript `String(v)` coercion: `String(null) = "null"`, numbers and
booleans print themselves, arrays join their elements with commas
(`Array.prototype.toString`, where a null element becomes the empty string),
plain objects print as `[object Object]`. -/
def jsToString : JVal → String
  | JVal.null => "null"
  | JVal.bool b => if b then "true" else "false"
  | JVal.num n => toString n
  | JVal.str s => s
  | JVal.obj _ => "[object Object]"
  | JVal.arr xs => String.intercalate "," (jsToStringItems xs)

/-- Element conversions for `Array.prototype.toString`: `null` elements
become the empty string, the rest go through `jsToString`. -/
def jsToStringItems : List JVal → List String
  | [] => []
  | JVal.null :: vs => "" :: jsToStringItems vs
  | v :: vs => jsToString v :: jsToStringItems vs

end

/-- Indentation used by `JSON.stringify(v, null, 2)` at nesting depth `d`. -/
def indentOf (d : Nat) : String := String.mk (List.replicate (2 * d) ' ')

/-- Lower-case hexadecimal digit for `n < 16`. -/
def hexDigit (n : Nat) : Char :=
  if n < 10 then Char.ofNat (48 + n) else Char.ofNat (87 + n)

/-- ECMA-404 / `JSON.stringify` escaping of one character inside a quoted
JSON string. -/
def escChar (c : Char) : List Char :=
  if c = '"' then ['\\', '"']
  else if c = '\\' then ['\\', '\\']
  else if c = '\n' then ['\\', 'n']
  else if c = '\t' then ['\\', 't']
  else if c = '\r' then ['\\', 'r']
  else if c = Char.ofNat 8 then ['\\', 'b']
  else if c = Char.ofNat 12 then ['\\', 'f']
  else if c.toNat < 32 then
    ['\\', 'u', '0', '0', hexDigit (c.toNat / 16), hexDigit (c.toNat % 16)]
  else [c]

/-- Quoted JSON string literal as produced by `JSON.stringify`. -/
def jsonQuote (s : String) : String :=
  String.mk ('"' :: (s.data.flatMap escChar ++ ['"']))

mutual

/-- Embedding of `JSON.stringify(v, null, 2)` at nesting depth `d`:
pretty-printed JSON with two-space indentation, empty containers printed
inline, `"key": value` members separated by `",\n"`. -/
def stringifyJ : Nat → JVal → String
  | _, JVal.null => "null"
  | _, JVal.bool b => if b then "true" else "false"
  | _, JVal.num n => toString n
  | _, JVal.str s => jsonQuote s
  | d, JVal.arr xs =>
    match xs with
    | [] => "[]"
    | x :: rest =>
      "[\n" ++ String.intercalate ",\n" (stringifyArrItems (d + 1) (x :: rest))
        ++ "\n" ++ indentOf d ++ "]"
  | d, JVal.obj fs =>
    match fs with
    | [] => "\x7b\x7d"
    | f :: rest =>
      "\x7b\n" ++ String.intercalate ",\n" (stringifyObjItems (d + 1) (f :: rest))
        ++ "\n" ++ indentOf d ++ "\x7d"

/-- Array elements of the pretty printer, each prefixed by its indentation. -/
def stringifyArrItems : Nat → List JVal → List String
  | _, [] => []
  | d, v :: vs => (indentOf d ++ stringifyJ d v) :: stringifyArrItems d vs

/-- Object members of the pretty printer, each `"key": value` prefixed by its
indentation. -/
def stringifyObjItems : Nat → List (String × JVal) → List String
  | _, [] => []
  | d, (k, v) :: fs =>
    (indentOf d ++ jsonQuote k ++ ": " ++ stringifyJ d v) :: stringifyObjItems d fs

end

/-- Fenced JSON block the normalizer produces for structured content:
`"```json\n" + JSON.stringify(content, null, 2) + "\n```"`. -/
def fencedJson (v : JVal) : String :=
  "```json\n" ++ stringifyJ 0 v ++ "\n```"

/-- Embedding of the Response Normalizer (content-generator-form.tsx, lines
72 to 85). The source first tests `typeof content === 'object' &&
content !== null`, which holds exactly for `JVal.obj` and `JVal.arr`; inside
that branch it tests `content.raw && typeof content.raw === 'string'`,
which holds exactly when the property `raw` exists and is a non-empty string
(an empty string is falsy). Arrays have no `raw` property, so they always
take the `JSON.stringify` branch. Otherwise a string is used verbatim and
anything else goes through `String(content)`. -/
def normalizeContent : JVal → String
  | JVal.obj fs =>
    match jsLookup fs "raw" with
    | some (JVal.str s) => if s = "" then fencedJson (JVal.obj fs) else s
    | _ => fencedJson (JVal.obj fs)
  | JVal.arr xs => fencedJson (JVal.arr xs)
  | JVal.str s => s
  | v => jsToString v

/-- Modelled from the words of claim C1 (not from the source), for
falsification: rule (1) uses the `raw` string even when it is empty, and
rule (4) sends arrays to their plain string representation. -/
def normalizeClaimC1 : JVal → String
  | JVal.obj fs =>
    match jsLookup fs "raw" with
    | some (JVal.str s) => s
    | _ => fencedJson (JVal.obj fs)
  | JVal.str s => s
  | v => jsToString v

/-- The `raw` extraction as the amended claim words it: defined only when the
value is an object whose `raw` property is a non-empty string. -/
def rawNonEmptyString : JVal → Option String
  | JVal.obj fs =>
    match jsLookup fs "raw" with
    | some (JVal.str s) => if s = "" then none else some s
    | _ => none
  | _ => none

/-- Modelled from the words of the amended claim C1: (1) if `content` is a
non-null object in the `typeof` sense (which includes arrays) whose `raw`
property is a non-empty string, that string verbatim; (2) else if `content`
is a non-null object or an array, the pretty-printed JSON serialization
wrapped in a `json` fence; (3) else if a string, verbatim; (4) else (number,
boolean, null) the value coerced by `String(...)`. -/
def normalizeSpecAmended (c : JVal) : String :=
  if typeofIsObject c && !jsIsNull c then
    match rawNonEmptyString c with
    | some s => s
    | none => fencedJson c
  else
    match c with
    | JVal.str s => s
    | v => jsToString v

/-- Property access `v.raw` with its JavaScript abrupt-completion behaviour:
reading a property of `null` throws a TypeError; objects yield the property
or `undefined` (modelled as `none`); other values (arrays, boxed
primitives) yield `undefined` for the properties used here. -/
def getPropE : JVal → String → Except String (Option JVal)
  | JVal.null, _ => Except.error "TypeError: cannot read properties of null"
  | JVal.obj fs, k => Except.ok (jsLookup fs k)
  | _, _ => Except.ok none

/-- Embedding of the Response Normalizer where every JavaScript operation
that can complete abruptly is given Except semantics. Only the guarded
property access `content.raw` could throw, and only on `null`, which the
guard `typeof content === 'object' && content !== null` excludes. -/
def normalizeContentE (c : JVal) : Except String String :=
  if typeofIsObject c && !jsIsNull c then
    match getPropE c "raw" with
    | Except.error e => Except.error e
    | Except.ok rawv =>
      Except.ok (match rawv with
        | some (JVal.str s) => if s = "" then fencedJson c else s
        | _ => fencedJson c)
  else
    match c with
    | JVal.str s => Except.ok s
    | v => Except.ok (jsToString v)

/-- Line terminators recognised by the ECMAScript regex anchors `^` and `$`
in multiline mode: LF, CR, LINE SEPARATOR, PARAGRAPH SEPARATOR. -/
def isLineTerm (c : Char) : Bool :=
  c = '\n' || c = '\r' || c = Char.ofNat 0x2028 || c = Char.ofNat 0x2029

/-- Characters matched by the regex class `[a-zA-Z0-9]` (the optional
language tag after the opening fence). -/
def isAsciiAlnum (c : Char) : Bool :=
  ('a' ≤ c && c ≤ 'z') || ('A' ≤ c && c ≤ 'Z') || ('0' ≤ c && c ≤ '9')

/-- Whitespace recognised by the regex class `\s` (restricted to the forms
that can occur in the inputs of interest). -/
def isJsWhitespace (c : Char) : Bool :=
  c = ' ' || c = '\t' || c = '\n' || c = '\r' || c = Char.ofNat 11 || c = Char.ofNat 12 ||
  c = Char.ofNat 0xa0 || c = Char.ofNat 0xfeff || c = Char.ofNat 0x2028 || c = Char.ofNat 0x2029

/-- Consume an exact character sequence from the front of a list, returning
the rest on success. -/
def stripPrefixOf : List Char → List Char → Option (List Char)
  | [], l => some l
  | _ :: _, [] => none
  | p :: ps, c :: cs => if p = c then stripPrefixOf ps cs else none

/-- Consume a leading triple-backtick fence marker. -/
def stripTicks (l : List Char) : Option (List Char) :=
  stripPrefixOf "```".data l

/-- Whether the text at this position starts with a triple-backtick fence. -/
def isFenceHere (l : List Char) : Bool :=
  (stripTicks l).isSome

/-- Leftmost match start of the pattern `/^```.../m`: scan the text for the
first position that lies at the start of a line (start of input or right
after a line terminator, tracked by the flag) and carries a triple-backtick
fence. Returns the text before the match and the text from the match on. -/
def findFence : Bool → List Char → Option (List Char × List Char)
  | _, [] => none
  | atStart, c :: rest =>
    if atStart && isFenceHere (c :: rest) then some ([], c :: rest)
    else
      match findFence (isLineTerm c) rest with
      | some (pre, m) => some (c :: pre, m)
      | none => none

/-- Whether a suffix is matched by the trailing-fence pattern `/\n?```\s*$/`
on a line without line terminators: a triple backtick followed by
whitespace only. -/
def isTrailFence (l : List Char) : Bool :=
  match stripTicks l with
  | some rest => rest.all isJsWhitespace
  | none => false

/-- First-match replace of the trailing-fence pattern with the empty string:
drop the leftmost suffix consisting of a triple backtick followed only by
whitespace; if there is none, keep the line unchanged. -/
def removeTrailFence : List Char → List Char
  | [] => []
  | c :: rest => if isTrailFence (c :: rest) then [] else c :: removeTrailFence rest

/-- Embedding of the fence-stripping step (content-generator-form.tsx, lines
89 to 97): `displayContent.replace(/^```[a-zA-Z0-9]*\n?[\s\S]*?$/m, cb)`.
Per ECMAScript semantics the leftmost match starts at the first line start
carrying three backticks, consumes the greedy language tag `[a-zA-Z0-9]*`
and the greedy optional `\n?`, and then the lazy `[\s\S]*?$` in multiline
mode ends the match at the FIRST line end at or after that point, so the
match covers at most the opening fence line and the one line after it. The
callback strips the opening fence prefix and then removes a trailing
`/\n?```\s*$/` from the matched text only; the replacement is spliced back
between the unmatched prefix and suffix. -/
def stripFencesL (l : List Char) : List Char :=
  match findFence true l with
  | none => l
  | some (pre, m) =>
    match stripTicks m with
    | none => l
    | some r1 =>
      let r2 := r1.dropWhile isAsciiAlnum
      let r3 := match r2 with
        | c :: t => if c = '\n' then t else c :: t
        | [] => []
      let line := r3.takeWhile (fun c => !isLineTerm c)
      let after := r3.dropWhile (fun c => !isLineTerm c)
      pre ++ removeTrailFence line ++ after

/-- String-level fence stripping. -/
def stripFences (s : String) : String := String.mk (stripFencesL s.data)

/-- Embedding of the `unFenced` computation: fence stripping applies only
when the content type is `"blog"`; all other content types pass the display
text through unchanged. -/
def unFence (contentType : String) (s : String) : String :=
  if contentType = "blog" then stripFences s else s

/-- Whether some line of the text begins with a triple-backtick fence
opener, phrased directly on the text: either the text itself starts with
one, or one appears right after a line terminator. -/
def hasFenceAfterTerm : List Char → Bool
  | [] => false
  | c :: rest => (isLineTerm c && isFenceHere rest) || hasFenceAfterTerm rest

/-- Spec-side predicate: the text contains a line starting with three
backticks. -/
def hasFenceOpenerLine (l : List Char) : Bool :=
  isFenceHere l || hasFenceAfterTerm l

/-- Embedding of the `escapeRegExp` helper (result-card.tsx, lines 19 to
21): `string.replace(/[.*+?^${}()|[\]\\]/g, '\\$&')` prefixes a backslash
to every regex metacharacter. The metacharacter class. -/
def isRegexMeta (c : Char) : Bool :=
  (".*+?^$\x7b\x7d()|[]\\".data).contains c

/-- Character-level global replace underlying `escapeRegExp`: each
metacharacter is replaced by backslash followed by itself. -/
def escapeRegExpL : List Char → List Char
  | [] => []
  | c :: rest =>
    if isRegexMeta c then '\\' :: c :: escapeRegExpL rest
    else c :: escapeRegExpL rest

/-- String-level `escapeRegExp`. -/
def escapeRegExp (s : String) : String := String.mk (escapeRegExpL s.data)

/-- Tokens of the regex dialect needed for the pattern the code builds:
literal characters (either plain or backslash-escaped in the pattern
source) and the lazy any-character quantifier `.*?`. -/
inductive RTok where
  | lit (c : Char)
  | anyLazy

/-- Token reading of a regex source string, restricted to the grammar the
builder produces: a backslash escapes the next character into a literal,
the three-character sequence `.*?` is the lazy any-quantifier, and every
other character stands for itself. (A dangling backslash or a bare `.`
never occurs in the patterns built by the code: every `.` of the URL is
escaped by `escapeRegExp` and the fixed parts use `.` only inside `.*?`.) -/
def parseToks : List Char → List RTok
  | [] => []
  | '\\' :: d :: rest2 => RTok.lit d :: parseToks rest2
  | ['\\'] => []
  | '.' :: '*' :: '?' :: rest2 => RTok.anyLazy :: parseToks rest2
  | c :: rest => RTok.lit c :: parseToks rest

/-- Literal spine of a token list: defined when the tokens are all
literals, as they are after the `.*?` of the built pattern. -/
def litsOf : List RTok → Option (List Char)
  | [] => some []
  | RTok.lit c :: ts => (litsOf ts).map (c :: ·)
  | RTok.anyLazy :: _ => none

/-- Lazy scan of `.*?` followed by a literal continuation: at each position
first try the continuation (the lazy quantifier prefers the shortest
expansion), otherwise consume one character, which `.` forbids to be a
line terminator. -/
def scanLazy (cs : List Char) : List Char → Option (List Char)
  | [] => stripPrefixOf cs []
  | x :: xs =>
    match stripPrefixOf cs (x :: xs) with
    | some r => some r
    | none => if isLineTerm x then none else scanLazy cs xs

/-- Matcher for a token list against the text at the current position,
returning the rest of the text after the match. `anyLazy` is supported
when followed only by literals, which holds for every pattern the code
builds. -/
def matchToks : List RTok → List Char → Option (List Char)
  | [], l => some l
  | RTok.lit _ :: _, [] => none
  | RTok.lit c :: ts, x :: xs => if x = c then matchToks ts xs else none
  | RTok.anyLazy :: ts, l =>
    match litsOf ts with
    | some cs => scanLazy cs l
    | none => none

/-- Fuelled global regex replace with the empty string, ECMAScript `'g'`
semantics: at each position try the leftmost match; on a non-empty match
drop it and continue right after it; on an empty match or no match keep
the character and continue one position further. The fuel is the length of
the scanned text, which the wrapper supplies. -/
def replaceAllFuel (ts : List RTok) : Nat → List Char → List Char
  | 0, l => l
  | _ + 1, [] => []
  | fuel + 1, x :: xs =>
    match matchToks ts (x :: xs) with
    | some after =>
      if after.length < xs.length + 1 then replaceAllFuel ts fuel after
      else x :: replaceAllFuel ts fuel xs
    | none => x :: replaceAllFuel ts fuel xs

/-- Global replace-with-empty of a token pattern in a text. -/
def replaceAll (ts : List RTok) (l : List Char) : List Char :=
  replaceAllFuel ts l.length l

/-- Source characters of the pattern the code builds in result-card.tsx,
line 62: `new RegExp("!\\[.*?\\]\\(" + escapeRegExp(imageSrc) + "\\)", 'g')`
(shown with JavaScript string escaping; the pattern text is
`!\[.*?\]\(` followed by the escaped URL followed by `\)`). -/
def imagePatternChars (url : String) : List Char :=
  '!' :: '\\' :: '[' :: '.' :: '*' :: '?' :: '\\' :: ']' :: '\\' :: '(' ::
    (escapeRegExpL url.data ++ ['\\', ')'])

/-- Tokens of the built image-directive pattern. -/
def imageDirToks (url : String) : List RTok :=
  parseToks (imagePatternChars url)

/-- Embedding of the image-markup removal (result-card.tsx, lines 61 to
63): `content.replace(new RegExp(..., 'g'), '')`. -/
def removeImageMarkup (url content : String) : String :=
  String.mk (replaceAll (imageDirToks url) content.data)

/-- Embedding of `processedContent` (result-card.tsx, lines 24, 25 and 61
to 63): `imageUrl ?? undefined` collapses null and undefined, and the
ternary `imageSrc ? ... : content` skips the removal when the image source
is absent or the empty string (falsy). -/
def processedContent (imageUrl : Option String) (content : String) : String :=
  match imageUrl with
  | none => content
  | some u => if u = "" then content else removeImageMarkup u content

/-- One markdown image directive for the given image URL and alt text:
`![alt](url)`. -/
def imageDirective (url alt : String) : String :=
  "![" ++ alt ++ "](" ++ url ++ ")"

/-- Text built from any number of image-directive occurrences: each piece
`(gap, alt)` contributes the gap text followed by one directive
`![alt](url)`, and the final tail follows the last directive. -/
def interleaveDirectives (url : String) : List (String × String) → String → String
  | [], tail => tail
  | (g, a) :: ps, tail => g ++ imageDirective url a ++ interleaveDirectives url ps tail

/-- The same text with every directive occurrence deleted: the gaps and
the tail, concatenated in order. -/
def concatGapStrings : List (String × String) → String → String
  | [], tail => tail
  | (g, _) :: ps, tail => g ++ concatGapStrings ps tail

/-- Character-level form of `interleaveDirectives`, with each directive
spelled in the nesting the matcher consumes it in. -/
def interleaveDirs (url : List Char) : List (List Char × List Char) → List Char → List Char
  | [], tail => tail
  | (g, a) :: ps, tail =>
    g ++ ('!' :: '[' :: (a ++ (']' :: '(' :: (url ++ (')' :: interleaveDirs url ps tail)))))

/-- Character-level form of `concatGapStrings`. -/
def concatGaps : List (List Char × List Char) → List Char → List Char
  | [], tail => tail
  | (g, _) :: ps, tail => g ++ concatGaps ps tail

/-- Embedding of JavaScript `String.prototype.split` with a one-character
separator: `"".split(sep) = [""]`, separators delimit (possibly empty)
fields. -/
def splitOnChar (sep : Char) : List Char → List (List Char)
  | [] => [[]]
  | c :: rest =>
    match splitOnChar sep rest with
    | [] => [[]]
    | first :: others =>
      if c = sep then [] :: first :: others else (c :: first) :: others

/-- Append one character to the last field of a split result. -/
def appendLast (x : Char) : List (List Char) → List (List Char)
  | [] => [[x]]
  | [s] => [s ++ [x]]
  | s :: rest => s :: appendLast x rest

/-- Last element of a list of fields, empty when there is none. -/
def lastElem : List (List Char) → List Char
  | [] => []
  | [s] => s
  | _ :: rest => lastElem rest

/-- Embedding of `urlPath.split("/").filter(Boolean).pop()` (result-card.tsx,
line 46): the last of the non-empty path segments, if any (for strings,
`filter(Boolean)` drops exactly the empty segments, and `pop()` of an empty
array is undefined). -/
def lastNonEmptySegOfPath (path : String) : Option String :=
  (((splitOnChar '/' path.data).filter (fun seg => seg ≠ [])).getLast?).map String.mk

/-- Embedding of `blob.type.split("/")[1] || "png"` (result-card.tsx, line
47): the field between the first and second slash of the media type, with
`"png"` substituted when it is missing or empty (falsy). -/
def subtypeOfBlobType (blobType : String) : String :=
  match splitOnChar '/' blobType.data with
  | _ :: sub :: _ => if sub = [] then "png" else String.mk sub
  | _ => "png"

/-- Embedding of the download filename derivation (result-card.tsx, lines
44 to 48): `fileNameFromUrl || ("generated-image." + extensionFromType)`.
A present last segment is a non-empty string, hence truthy. The URL parsing
step (`new URL(imageSrc, ...).pathname`) is modelled by taking the pathname
as input. -/
def deriveFilename (pathname blobType : String) : String :=
  match lastNonEmptySegOfPath pathname with
  | some f => f
  | none => "generated-image." ++ subtypeOfBlobType blobType

/-- Spec-side formulation of "the last non-empty segment of the URL path":
read the path from the right, skip trailing slashes, and take the maximal
slash-free run; empty means no segment. -/
def lastNonEmptySegmentSpec (path : String) : Option String :=
  if (path.data.reverse.dropWhile (fun c => c = '/')).takeWhile (fun c => c ≠ '/') = [] then
    none
  else
    some (String.mk ((path.data.reverse.dropWhile (fun c => c = '/')).takeWhile
      (fun c => c ≠ '/')).reverse)

/-- Spec-side formulation of "the media subtype of the fetched content,
defaulting to png": the slash-free run right after the first slash of the
media type, with png for a missing or empty run. -/
def subtypeSpec (blobType : String) : String :=
  if blobType.data.dropWhile (fun c => c ≠ '/') = [] then "png"
  else if ((blobType.data.dropWhile (fun c => c ≠ '/')).tail.takeWhile (fun c => c ≠ '/')) = []
    then "png"
  else String.mk ((blobType.data.dropWhile (fun c => c ≠ '/')).tail.takeWhile (fun c => c ≠ '/'))

/-- Embedding of the error-message path for a non-2xx response with a JSON
object body (content-generator-form.tsx, lines 64 to 67 and 105 to 107):
`throw new Error(errorData.detail || "Failed to generate content.")` and,
in the catch, `toast.error(error.message || "An unexpected error
occurred.")`. The `||` chains branch on JavaScript truthiness, and the
Error message is the `String(...)` coercion of its argument. -/
def surfacedError (fs : List (String × JVal)) : String :=
  let v : JVal :=
    match jsLookup fs "detail" with
    | some d => if jsTruthy d then d else JVal.str "Failed to generate content."
    | none => JVal.str "Failed to generate content."
  let msg := jsToString v
  if msg = "" then "An unexpected error occurred." else msg

/-- Raw generation response as received (after `response.json()`). -/
structure RawResponse where
  url : String
  content_type : String
  image_url : Option String
  content : JVal

/-- Result stored in the view state (`setResult`): content already
normalized and unfenced. -/
structure GenResult where
  url : String
  content_type : String
  image_url : Option String
  content : String

/-- View state owned by the form component: the loading flag and the
current result. -/
structure ViewState where
  loading : Bool
  result : Option GenResult

/-- Outcome of the submission HTTP call: network-level rejection, non-2xx
response with a parsed JSON object body, or 2xx success. -/
inductive FetchOutcome where
  | netError (msg : String)
  | httpError (body : List (String × JVal))
  | success (resp : RawResponse)

/-- Whether the outcome takes the error path of `onSubmit`. -/
def isFailureOutcome : FetchOutcome → Bool
  | FetchOutcome.netError _ => true
  | FetchOutcome.httpError _ => true
  | FetchOutcome.success _ => false

/-- Embedding of the state changes of `onSubmit`
(content-generator-form.tsx, lines 44 to 111): `setLoading(true)` and
`setResult(null)` run first; on success the normalized, unfenced result is
stored; on any thrown error the catch shows a toast and does not touch the
result; `finally` sets loading back to false. Returns the final state and
the toast message. -/
def runSubmit (_st : ViewState) (o : FetchOutcome) : ViewState × String :=
  let cleared : ViewState := { loading := true, result := none }
  match o with
  | FetchOutcome.netError m =>
    ({ cleared with loading := false },
      if m = "" then "An unexpected error occurred." else m)
  | FetchOutcome.httpError body =>
    ({ cleared with loading := false }, surfacedError body)
  | FetchOutcome.success r =>
    let display := normalizeContent r.content
    let unFenced := unFence r.content_type display
    ({ loading := false,
       result := some { url := r.url, content_type := r.content_type,
                        image_url := r.image_url, content := unFenced } },
      "Content generated successfully!")

/-- CLAIM C1 (counterexample): the claim states that an object whose `raw`
field is any string, including the empty string, normalizes to that string
verbatim, and that an array normalizes to its plain string representation.
The code disagrees on both: `content.raw && ...` is falsy for the empty
string, so an object whose `raw` is the empty string is JSON-fenced instead of yielding `""`, and
`typeof [1,2] === "object"`, so the array is JSON-fenced instead of
yielding `"1,2"`. -/
theorem claim_C1_counterexample :
    normalizeContent (JVal.obj [("raw", JVal.str "")])
        ≠ normalizeClaimC1 (JVal.obj [("raw", JVal.str "")])
    ∧ normalizeContent (JVal.obj [("raw", JVal.str "")])
        = "```json\n\x7b\n  \"raw\": \"\"\n\x7d\n```"
    ∧ normalizeContent (JVal.arr [JVal.num 1, JVal.num 2])
        ≠ normalizeClaimC1 (JVal.arr [JVal.num 1, JVal.num 2])
    ∧ normalizeClaimC1 (JVal.arr [JVal.num 1, JVal.num 2]) = "1,2" := by
  refine ⟨by decide, by decide, by decide, by decide⟩

/-- CLAIM C1 (amended): the normalizer follows the ordered first-match
chain with two corrections forced by the counterexample: rule (1) requires
the `raw` field to be a non-empty string, and arrays fall under the
non-null-object rules (1)/(2) rather than under the string-coercion rule
(4); numbers, booleans and null are coerced by `String(...)`. -/
theorem claim_C1_amended (c : JVal) : normalizeContent c = normalizeSpecAmended c := by
  cases c with
  | null => rfl
  | bool b => rfl
  | num n => rfl
  | str s => rfl
  | arr xs => rfl
  | obj fs =>
    cases h : jsLookup fs "raw" with
    | none =>
      simp [normalizeContent, normalizeSpecAmended, rawNonEmptyString, typeofIsObject, jsIsNull, h]
    | some v =>
      cases v with
      | str s =>
        by_cases hs : s = "" <;>
          simp [normalizeContent, normalizeSpecAmended, rawNonEmptyString, typeofIsObject,
            jsIsNull, h, hs]
      | null =>
        simp [normalizeContent, normalizeSpecAmended, rawNonEmptyString, typeofIsObject,
          jsIsNull, h]
      | bool b =>
        simp [normalizeContent, normalizeSpecAmended, rawNonEmptyString, typeofIsObject,
          jsIsNull, h]
      | num n =>
        simp [normalizeContent, normalizeSpecAmended, rawNonEmptyString, typeofIsObject,
          jsIsNull, h]
      | arr xs =>
        simp [normalizeContent, normalizeSpecAmended, rawNonEmptyString, typeofIsObject,
          jsIsNull, h]
      | obj fs2 =>
        simp [normalizeContent, normalizeSpecAmended, rawNonEmptyString, typeofIsObject,
          jsIsNull, h]

/-- CLAIM C1 (amended) witness: the amended chain evaluated at a concrete
object with a non-empty `raw` string. -/
theorem claim_C1_amended_witness :
    normalizeContent (JVal.obj [("raw", JVal.str "# Hi")]) = "# Hi" := by
  have h := claim_C1_amended (JVal.obj [("raw", JVal.str "# Hi")])
  simpa using h

/-- CLAIM C4: normalization of the `content` field is total. In the
Except-semantics embedding, where the guarded property access would throw a
TypeError on `null`, every JSON shape of `content` produces `ok` with
exactly the string the pure normalizer computes: no branch of the shape
analysis can throw. -/
theorem claim_C4_normalizer_total (c : JVal) :
    normalizeContentE c = Except.ok (normalizeContent c) := by
  cases c with
  | null => rfl
  | bool b => rfl
  | num n => rfl
  | str s => rfl
  | arr xs => rfl
  | obj fs =>
    cases h : jsLookup fs "raw" with
    | none => simp [normalizeContentE, normalizeContent, getPropE, typeofIsObject, jsIsNull, h]
    | some v =>
      cases v with
      | str s =>
        by_cases hs : s = "" <;>
          simp [normalizeContentE, normalizeContent, getPropE, typeofIsObject, jsIsNull, h, hs]
      | null => simp [normalizeContentE, normalizeContent, getPropE, typeofIsObject, jsIsNull, h]
      | bool b => simp [normalizeContentE, normalizeContent, getPropE, typeofIsObject, jsIsNull, h]
      | num n => simp [normalizeContentE, normalizeContent, getPropE, typeofIsObject, jsIsNull, h]
      | arr xs => simp [normalizeContentE, normalizeContent, getPropE, typeofIsObject, jsIsNull, h]
      | obj fs2 =>
        simp [normalizeContentE, normalizeContent, getPropE, typeofIsObject, jsIsNull, h]

/-- Bridging lemma: the matcher finds no fence exactly when no line of the
text begins with a fence opener (the flag generalises over whether the scan
currently sits at a line start). -/
theorem findFence_eq_none_iff (l : List Char) :
    ∀ b : Bool, findFence b l = none ↔
      ((b && isFenceHere l) || hasFenceAfterTerm l) = false := by
  induction l with
  | nil =>
    intro b
    simp only [findFence, hasFenceAfterTerm, Bool.or_false, true_iff]
    cases b <;> simp [isFenceHere, stripTicks, stripPrefixOf]
  | cons c rest ih =>
    intro b
    by_cases hb : (b && isFenceHere (c :: rest)) = true
    · simp [findFence, hb, hasFenceAfterTerm]
    · have hb' : (b && isFenceHere (c :: rest)) = false := by
        revert hb; cases b <;> cases h : isFenceHere (c :: rest) <;> simp
      rw [findFence]
      simp only [hb', Bool.false_eq_true, if_false, hasFenceAfterTerm, Bool.false_or]
      cases hrec : findFence (isLineTerm c) rest with
      | some pm =>
        have := (ih (isLineTerm c))
        rw [hrec] at this
        simp only [reduceCtorEq, false_iff] at this
        constructor
        · intro hcontra; cases pm; simp at hcontra
        · intro hff
          exact absurd hff (by simpa using this)
      | none =>
        have := (ih (isLineTerm c)).mp hrec
        simp [this]

/-- When the text has no fence-opener line, the stripping step is the
identity. -/
theorem stripFencesL_of_no_fence {l : List Char} (h : hasFenceOpenerLine l = false) :
    stripFencesL l = l := by
  have hf : findFence true l = none := by
    rw [findFence_eq_none_iff]
    revert h
    rw [hasFenceOpenerLine]
    cases hh : isFenceHere l <;> simp
  rw [stripFencesL, hf]

/-- CLAIM C2 (code behaviour at the failing input): for the spec example
"```markdown\n# Title\nBody\n```" with content type blog, the lazy
multiline match ends at the end of the line after the opening fence, so the
code strips the opening fence line but leaves the closing fence: the output
is "# Title\nBody\n```", not the "# Title\nBody" the claim requires. -/
theorem claim_C2_code_behavior :
    unFence "blog" "```markdown\n# Title\nBody\n```" = "# Title\nBody\n```"
    ∧ ("# Title\nBody\n```" : String) ≠ "# Title\nBody" := by
  exact ⟨by decide, by decide⟩

/-- CLAIM C3 (code behaviour at failing inputs): a text that does not begin
with a fence opener but contains one mid-text is modified (the multiline
anchor finds the interior line), and an opening fence with no matching
trailing fence is removed rather than preserved; both contradict the
claimed return-the-original-unchanged behaviour. -/
theorem claim_C3_code_behavior :
    unFence "blog" "intro\n```js\ncode\n```\nend" = "intro\ncode\n```\nend"
    ∧ ("intro\ncode\n```\nend" : String) ≠ "intro\n```js\ncode\n```\nend"
    ∧ unFence "blog" "```js\nhello\nworld" = "hello\nworld"
    ∧ ("hello\nworld" : String) ≠ "```js\nhello\nworld" := by
  exact ⟨by decide, by decide, by decide, by decide⟩

/-- CLAIM C6 (counterexample): fence stripping is not idempotent. On
"```a\n```b\nx\n```" one application yields "```b\nx\n```" (the match
covered only the opening fence line and the line after it), and a second
application strips again, yielding "x\n```". -/
theorem claim_C6_counterexample :
    unFence "blog" (unFence "blog" "```a\n```b\nx\n```")
      ≠ unFence "blog" "```a\n```b\nx\n```" := by
  decide

/-- CLAIM C6 (amended): fence stripping is idempotent on every display
string whose once-stripped output no longer contains any line beginning
with a triple-backtick fence opener; for such strings a second application
changes nothing. -/
theorem claim_C6_amended (s : String)
    (h : hasFenceOpenerLine (unFence "blog" s).data = false) :
    unFence "blog" (unFence "blog" s) = unFence "blog" s := by
  have hid : stripFencesL ((unFence "blog" s).data) = (unFence "blog" s).data :=
    stripFencesL_of_no_fence h
  have h2 : unFence "blog" (unFence "blog" s)
      = String.mk (stripFencesL ((unFence "blog" s).data)) := by
    simp [unFence, stripFences]
  rw [h2, hid]

/-- CLAIM C6 (amended) witness: a fence-free string satisfies the
hypothesis and is a fixed point of double stripping. -/
theorem claim_C6_amended_witness :
    hasFenceOpenerLine (unFence "blog" "hello\nworld").data = false
    ∧ unFence "blog" (unFence "blog" "hello\nworld") = unFence "blog" "hello\nworld" :=
  ⟨by decide, claim_C6_amended "hello\nworld" (by decide)⟩

/-- CLAIM C10: when the response carries no image URL, the image-markup
removal is skipped entirely and the displayed text is exactly the incoming
content string, whatever it contains. -/
theorem claim_C10_no_image_url (content : String) :
    processedContent none content = content := rfl

/-- Unfolding helper: a plain character (neither backslash nor dot) reads
as a literal token. -/
theorem parseToks_cons_plain (c : Char) (rest : List Char) (h1 : c ≠ '\\') (h2 : c ≠ '.') :
    parseToks (c :: rest) = RTok.lit c :: parseToks rest := by
  rw [parseToks.eq_def]
  split
  · simp_all
  · rename_i heq; injection heq with hc _; exact absurd hc h1
  · rename_i heq; injection heq with hc _; exact absurd hc h1
  · rename_i heq; injection heq with hc _; exact absurd hc h2
  · rename_i heq; injection heq with hc hrest; rw [hc, hrest]

/-- Escaping makes the URL letter-for-letter literal: reading the tokens of
the escaped text prepends exactly one literal token per original
character. This is the formal content of the escape step: no character of
the URL survives as a metacharacter. -/
theorem parseToks_escape (u : List Char) (rest : List Char) :
    parseToks (escapeRegExpL u ++ rest) = u.map RTok.lit ++ parseToks rest := by
  induction u with
  | nil => simp [escapeRegExpL]
  | cons c u ih =>
    by_cases hm : isRegexMeta c = true
    · rw [escapeRegExpL, if_pos hm]
      show parseToks ('\\' :: c :: (escapeRegExpL u ++ rest)) = _
      rw [parseToks, ih]
      rfl
    · have hb : c ≠ '\\' := by
        intro e; apply hm; rw [e]; decide
      have hd : c ≠ '.' := by
        intro e; apply hm; rw [e]; decide
      rw [escapeRegExpL, if_neg hm]
      show parseToks (c :: (escapeRegExpL u ++ rest)) = _
      rw [parseToks_cons_plain c _ hb hd, ih]
      rfl

/-- Shape of the built pattern: the fixed parts contribute the literal
`![`, the lazy any, and the literal `](`/`)` delimiters, and the escaped
URL contributes one literal token per URL character. -/
theorem imageDirToks_shape (url : String) :
    imageDirToks url
      = RTok.lit '!' :: RTok.lit '[' :: RTok.anyLazy :: RTok.lit ']' :: RTok.lit '(' ::
          (url.data.map RTok.lit ++ [RTok.lit ')']) := by
  rw [imageDirToks, imagePatternChars]
  rw [parseToks_cons_plain '!' _ (by decide) (by decide)]
  rw [parseToks]
  rw [show ('.' :: '*' :: '?' :: '\\' :: ']' :: '\\' :: '(' :: (escapeRegExpL url.data ++ ['\\', ')']))
        = '.' :: '*' :: '?' :: ('\\' :: ']' :: '\\' :: '(' :: (escapeRegExpL url.data ++ ['\\', ')'])) from rfl]
  rw [parseToks]
  rw [parseToks]
  rw [parseToks]
  rw [parseToks_escape]
  rw [parseToks]
  rfl

/-- Literal tokens list to their character spine. -/
theorem litsOf_map_lit (u : List Char) (ts : List RTok) :
    litsOf (u.map RTok.lit ++ ts) = (litsOf ts).map (fun cs => u ++ cs) := by
  induction u with
  | nil => cases h : litsOf ts <;> simp [h]
  | cons c u ih =>
    rw [List.map_cons, List.cons_append, litsOf, ih]
    cases h : litsOf ts <;> simp

/-- A literal sequence consumes exactly itself. -/
theorem stripPrefixOf_self_append (cs rest : List Char) :
    stripPrefixOf cs (cs ++ rest) = some rest := by
  induction cs with
  | nil => rfl
  | cons c cs ih => simp [stripPrefixOf, ih]

/-- A literal sequence fails on a mismatching head character. -/
theorem stripPrefixOf_cons_ne (c : Char) (cs : List Char) (x : Char) (xs : List Char)
    (h : c ≠ x) : stripPrefixOf (c :: cs) (x :: xs) = none := by
  simp [stripPrefixOf, h]

/-- The lazy scan walks over the alt text (which contains no closing
bracket and no line terminator) and stops exactly at the closing
delimiter, returning the text after it. -/
theorem scanLazy_through (cs' post : List Char) (alt : List Char)
    (halt : ∀ a ∈ alt, a ≠ ']' ∧ isLineTerm a = false) :
    scanLazy (']' :: cs') (alt ++ ((']' :: cs') ++ post)) = some post := by
  induction alt with
  | nil =>
    show scanLazy (']' :: cs') (']' :: (cs' ++ post)) = some post
    rw [scanLazy]
    rw [show (']' :: (cs' ++ post)) = ((']' :: cs') ++ post) from rfl]
    rw [stripPrefixOf_self_append]
  | cons a alt ih =>
    have ha := halt a (by simp)
    rw [List.cons_append, scanLazy]
    rw [stripPrefixOf_cons_ne ']' cs' a _ (fun e => ha.1 e.symm)]
    rw [ha.2]
    simp only [if_false]
    exact ih (fun b hb => halt b (by simp [hb]))

/-- String append at the data level. -/
theorem str_data_append (a b : String) : (a ++ b).data = a.data ++ b.data := by
  cases a; cases b; rfl

/-- String append reconstructed from data. -/
theorem str_append_eq (a b : String) : a ++ b = String.mk (a.data ++ b.data) := by
  cases a; cases b; rfl

/-- Full match of the built pattern against a directive occurrence: the
literal `![`, the lazy scan across an alt text free of closing brackets and
line terminators, then the literal `](`, the URL letter for letter, and the
literal `)`; the match returns the text after the directive. -/
theorem matchToks_directive (url : String) (alt post : List Char)
    (halt : ∀ a ∈ alt, a ≠ ']' ∧ isLineTerm a = false) :
    matchToks (imageDirToks url)
      ('!' :: '[' :: (alt ++ (']' :: '(' :: (url.data ++ (')' :: post))))) = some post := by
  rw [imageDirToks_shape]
  rw [matchToks]
  rw [if_pos rfl]
  rw [matchToks]
  rw [if_pos rfl]
  rw [matchToks]
  have hlits : litsOf (RTok.lit ']' :: RTok.lit '(' :: (url.data.map RTok.lit ++ [RTok.lit ')']))
      = some (']' :: '(' :: (url.data ++ [')'])) := by
    rw [litsOf, litsOf, litsOf_map_lit]
    rfl
  rw [hlits]
  have hsplit : (alt ++ (']' :: '(' :: (url.data ++ (')' :: post))))
      = alt ++ ((']' :: ('(' :: (url.data ++ [')']))) ++ post) := by
    simp [List.append_assoc]
  rw [hsplit]
  exact scanLazy_through ('(' :: (url.data ++ [')'])) post alt halt

/-- Fuel irrelevance of the global replace: any two sufficient fuels give
the same result. -/
theorem replaceAllFuel_mono (ts : List RTok) :
    ∀ (f1 : Nat) (l : List Char) (f2 : Nat), l.length ≤ f1 → l.length ≤ f2 →
      replaceAllFuel ts f1 l = replaceAllFuel ts f2 l := by
  intro f1
  induction f1 with
  | zero =>
    intro l f2 h1 _
    have hl : l = [] := List.eq_nil_of_length_eq_zero (Nat.le_zero.mp h1)
    subst hl
    cases f2 <;> rfl
  | succ f ih =>
    intro l f2 h1 h2
    cases l with
    | nil => cases f2 <;> rfl
    | cons x xs =>
      simp only [List.length_cons] at h1 h2
      cases f2 with
      | zero => omega
      | succ f2' =>
        simp only [replaceAllFuel]
        cases hm : matchToks ts (x :: xs) with
        | none =>
          rw [ih xs f2' (by omega) (by omega)]
        | some after =>
          by_cases hlt : after.length < xs.length + 1
          · simp only [if_pos hlt]
            exact ih after f2' (by omega) (by omega)
          · simp only [if_neg hlt]
            rw [ih xs f2' (by omega) (by omega)]

/-- Scanning text that contains no exclamation mark finds no directive and
copies the text: the global replace distributes over such a prefix. -/
theorem replaceAll_walk (url : String) :
    ∀ (l rest : List Char) (fuel : Nat), (l ++ rest).length ≤ fuel →
      (∀ c ∈ l, c ≠ '!') →
      replaceAllFuel (imageDirToks url) fuel (l ++ rest)
        = l ++ replaceAll (imageDirToks url) rest := by
  intro l
  induction l with
  | nil =>
    intro rest fuel h _
    simp only [List.nil_append] at h ⊢
    exact replaceAllFuel_mono _ fuel rest rest.length h le_rfl
  | cons c l ih =>
    intro rest fuel h hl
    have hc : c ≠ '!' := hl c (by simp)
    cases fuel with
    | zero => simp [List.length_cons] at h
    | succ f =>
      rw [List.cons_append]
      rw [replaceAllFuel]
      have hm : matchToks (imageDirToks url) (c :: (l ++ rest)) = none := by
        rw [imageDirToks_shape, matchToks, if_neg hc]
      rw [hm]
      simp only [List.cons_append, List.length_cons] at h
      rw [ih rest f (by omega) (fun d hd => hl d (by simp [hd]))]
      rfl

/-- Step equation of the global replace at a successful non-empty match:
the match is dropped and scanning resumes after it. -/
theorem replaceAllFuel_succ_match (ts : List RTok) (f : Nat) (x : Char) (xs after : List Char)
    (hm : matchToks ts (x :: xs) = some after) (hlt : after.length < xs.length + 1) :
    replaceAllFuel ts (f + 1) (x :: xs) = replaceAllFuel ts f after := by
  rw [replaceAllFuel, hm]
  show (if after.length < xs.length + 1 then replaceAllFuel ts f after
        else x :: replaceAllFuel ts f xs) = replaceAllFuel ts f after
  rw [if_pos hlt]

/-- CLAIM C5 (counterexample): the claim says exactly one occurrence of the
directive is deleted with every other character untouched; the code uses a
global regex (`'g'` flag) and deletes every occurrence. With two
occurrences of `![..](u)` in the text, deleting exactly one occurrence
would leave one of the two shown strings, but the code produces `" mid "`,
which is neither. -/
theorem claim_C5_counterexample :
    removeImageMarkup "u" "![a](u) mid ![b](u)" = " mid "
    ∧ (" mid " : String) ≠ "![a](u) mid "
    ∧ (" mid " : String) ≠ " mid ![b](u)" := by
  exact ⟨by decide, by decide, by decide⟩

/-- Character spine of one directive: `![alt](url)` spelled in the nesting
the matcher consumes it in. -/
theorem imageDirective_data (url alt : String) :
    (imageDirective url alt).data
      = '!' :: '[' :: (alt.data ++ (']' :: '(' :: (url.data ++ [')']))) := by
  rw [imageDirective, str_data_append, str_data_append, str_data_append, str_data_append]
  rw [show ("![" : String).data = ['!', '['] from by decide]
  rw [show ("](" : String).data = [']', '('] from by decide]
  rw [show (")" : String).data = [')'] from by decide]
  simp [List.append_assoc]

/-- Character spine of the interleaved text. -/
theorem interleaveDirectives_data (url : String) :
    ∀ (ps : List (String × String)) (tail : String),
      (interleaveDirectives url ps tail).data
        = interleaveDirs url.data (ps.map (fun p => (p.1.data, p.2.data))) tail.data := by
  intro ps
  induction ps with
  | nil => intro tail; rfl
  | cons p ps ih =>
    intro tail
    obtain ⟨g, a⟩ := p
    show (g ++ imageDirective url a ++ interleaveDirectives url ps tail).data = _
    rw [str_data_append, str_data_append, imageDirective_data, ih]
    simp [interleaveDirs, List.append_assoc]

/-- Character spine of the gaps-only concatenation. -/
theorem concatGapStrings_data :
    ∀ (ps : List (String × String)) (tail : String),
      (concatGapStrings ps tail).data
        = concatGaps (ps.map (fun p => (p.1.data, p.2.data))) tail.data := by
  intro ps
  induction ps with
  | nil => intro tail; rfl
  | cons p ps ih =>
    intro tail
    obtain ⟨g, a⟩ := p
    show (g ++ concatGapStrings ps tail).data = _
    rw [str_data_append, ih]
    rfl

/-- Global removal over a text with any number of directive occurrences:
each occurrence is deleted in turn (the scan walks each directive-free
gap, matches the directive, and resumes right after it), leaving exactly
the gaps and the tail. -/
theorem replaceAll_interleaveDirs (url : String) :
    ∀ (ps : List (List Char × List Char)) (tail : List Char),
      (∀ p ∈ ps, (∀ c ∈ p.1, c ≠ '!') ∧ (∀ a ∈ p.2, a ≠ ']' ∧ isLineTerm a = false)) →
      (∀ c ∈ tail, c ≠ '!') →
      replaceAll (imageDirToks url) (interleaveDirs url.data ps tail) = concatGaps ps tail := by
  intro ps
  induction ps with
  | nil =>
    intro tail _ htail
    show replaceAll (imageDirToks url) tail = tail
    have h := replaceAll_walk url tail [] tail.length (by simp) htail
    simpa [replaceAll, replaceAllFuel] using h
  | cons p ps ih =>
    intro tail hps htail
    obtain ⟨g, a⟩ := p
    have hg := (hps (g, a) (by simp)).1
    have ha := (hps (g, a) (by simp)).2
    rw [show interleaveDirs url.data ((g, a) :: ps) tail
        = g ++ ('!' :: '[' ::
            (a ++ (']' :: '(' :: (url.data ++ (')' :: interleaveDirs url.data ps tail)))))
        from rfl]
    rw [replaceAll]
    rw [replaceAll_walk url g _ _ le_rfl hg]
    have hD : replaceAll (imageDirToks url)
        ('!' :: '[' :: (a ++ (']' :: '(' :: (url.data ++ (')' :: interleaveDirs url.data ps tail)))))
        = concatGaps ps tail := by
      rw [replaceAll]
      rw [show ('!' :: '[' ::
            (a ++ (']' :: '(' :: (url.data ++ (')' :: interleaveDirs url.data ps tail))))).length
          = ('[' :: (a ++ (']' :: '(' ::
              (url.data ++ (')' :: interleaveDirs url.data ps tail))))).length + 1
          from by simp]
      have hguard : (interleaveDirs url.data ps tail).length
          < ('[' :: (a ++ (']' :: '(' ::
              (url.data ++ (')' :: interleaveDirs url.data ps tail))))).length + 1 := by
        simp [List.length_cons, List.length_append]
        omega
      rw [replaceAllFuel_succ_match (imageDirToks url) _ '!' _ (interleaveDirs url.data ps tail)
        (matchToks_directive url a (interleaveDirs url.data ps tail) ha) hguard]
      have hmono := replaceAllFuel_mono (imageDirToks url)
        ('[' :: (a ++ (']' :: '(' :: (url.data ++ (')' :: interleaveDirs url.data ps tail))))).length
        (interleaveDirs url.data ps tail) (interleaveDirs url.data ps tail).length
        (by simp [List.length_cons, List.length_append]; omega) le_rfl
      rw [hmono]
      exact ih tail (fun q hq => hps q (by simp [hq])) htail
    rw [hD]
    rfl

/-- CLAIM C5 (amended): the removal deletes every non-overlapping
occurrence, leftmost first, of the markdown image directive whose
parenthesized URL equals the image URL exactly (case-sensitive). The first
conjunct states the escaping guarantee: the built pattern tokenizes to the
literal frame `![`, lazy any, `](`, the URL letter for letter, `)` — every
regex metacharacter of the URL having been escaped into a literal. The
second conjunct states removal of every occurrence: for any URL and any
text consisting of ANY number of directive occurrences `![alt](url)`
(each alt free of closing brackets and line terminators) separated by
directive-free gaps (no exclamation mark) and a directive-free tail, the
result is exactly the gaps and the tail concatenated — every occurrence
is deleted and every other character is untouched. The previously stated
single-occurrence case is the instance with one piece. -/
theorem claim_C5_amended :
    (∀ url : String, imageDirToks url
        = RTok.lit '!' :: RTok.lit '[' :: RTok.anyLazy :: RTok.lit ']' :: RTok.lit '(' ::
            (url.data.map RTok.lit ++ [RTok.lit ')']))
    ∧ ∀ (url : String) (ps : List (String × String)) (tail : String),
        (∀ p ∈ ps, (∀ c ∈ p.1.data, c ≠ '!') ∧ (∀ a ∈ p.2.data, a ≠ ']' ∧ isLineTerm a = false)) →
        (∀ c ∈ tail.data, c ≠ '!') →
        removeImageMarkup url (interleaveDirectives url ps tail)
          = concatGapStrings ps tail := by
  constructor
  · exact imageDirToks_shape
  · intro url ps tail hps htail
    have hyps : ∀ q ∈ ps.map (fun p => (p.1.data, p.2.data)),
        (∀ c ∈ q.1, c ≠ '!') ∧ (∀ a ∈ q.2, a ≠ ']' ∧ isLineTerm a = false) := by
      intro q hq
      obtain ⟨p, hp, rfl⟩ := List.mem_map.mp hq
      exact hps p hp
    rw [removeImageMarkup, interleaveDirectives_data]
    rw [replaceAll_interleaveDirs url _ tail.data hyps htail]
    rw [← concatGapStrings_data]

/-- CLAIM C5 (amended) witness: a text with two occurrences of the
directive, whose URL contains the metacharacters `(`, `)` and `.`: both
directives are removed and everything else is untouched. -/
theorem claim_C5_amended_witness :
    removeImageMarkup "http://a.com/img(1).png"
      "Look ![x](http://a.com/img(1).png) mid ![y](http://a.com/img(1).png) done"
      = "Look  mid  done" := by
  have h := claim_C5_amended.2 "http://a.com/img(1).png"
    [("Look ", "x"), (" mid ", "y")] " done" (by decide) (by decide)
  have e1 : interleaveDirectives "http://a.com/img(1).png"
      [("Look ", "x"), (" mid ", "y")] " done"
      = "Look ![x](http://a.com/img(1).png) mid ![y](http://a.com/img(1).png) done" := by decide
  have e2 : concatGapStrings [("Look ", "x"), (" mid ", "y")] " done" = "Look  mid  done" := by
    decide
  rw [e1, e2] at h
  exact h

/-- Splitting never yields an empty list of fields. -/
theorem splitOnChar_ne_nil (sep : Char) (l : List Char) : splitOnChar sep l ≠ [] := by
  cases l with
  | nil => simp [splitOnChar]
  | cons c rest =>
    rw [splitOnChar]
    cases h : splitOnChar sep rest with
    | nil => simp
    | cons f o => by_cases hc : c = sep <;> simp [hc]

/-- Appending a separator appends one empty field. -/
theorem splitOnChar_append_sep (sep : Char) (l : List Char) :
    splitOnChar sep (l ++ [sep]) = splitOnChar sep l ++ [[]] := by
  induction l with
  | nil => simp [splitOnChar]
  | cons c l ih =>
    rw [List.cons_append, splitOnChar, ih]
    cases h : splitOnChar sep l with
    | nil => exact absurd h (splitOnChar_ne_nil sep l)
    | cons f o =>
      rw [splitOnChar, h]
      by_cases hc : c = sep <;> simp [hc]

/-- Appending a non-separator character appends it to the last field. -/
theorem splitOnChar_append_char (sep c : Char) (hc : c ≠ sep) (l : List Char) :
    splitOnChar sep (l ++ [c]) = appendLast c (splitOnChar sep l) := by
  induction l with
  | nil => simp [splitOnChar, appendLast, hc]
  | cons d l ih =>
    rw [List.cons_append, splitOnChar, ih]
    cases h : splitOnChar sep l with
    | nil => exact absurd h (splitOnChar_ne_nil sep l)
    | cons f o =>
      rw [splitOnChar, h]
      cases o with
      | nil =>
        by_cases hd : d = sep <;> simp [hd, appendLast]
      | cons o1 os =>
        by_cases hd : d = sep <;> simp [hd, appendLast]

/-- Last field of a concatenation ending in a singleton. -/
theorem lastElem_append_single (L : List (List Char)) (x : List Char) :
    lastElem (L ++ [x]) = x := by
  induction L with
  | nil => rfl
  | cons s L ih =>
    cases L with
    | nil => rfl
    | cons t L' => exact ih

/-- Non-emptiness of `appendLast`. -/
theorem appendLast_ne_nil (c : Char) (L : List (List Char)) : appendLast c L ≠ [] := by
  cases L with
  | nil => simp [appendLast]
  | cons s rest => cases rest <;> simp [appendLast]

/-- The last field ignores a head element when the tail is non-empty. -/
theorem lastElem_cons_of_ne_nil (s : List Char) {Y : List (List Char)} (h : Y ≠ []) :
    lastElem (s :: Y) = lastElem Y := by
  cases Y with
  | nil => exact absurd rfl h
  | cons a Y' => rfl

/-- Appending a character to the last field, seen through `lastElem`. -/
theorem lastElem_appendLast (c : Char) (L : List (List Char)) :
    lastElem (appendLast c L) = lastElem L ++ [c] := by
  induction L with
  | nil => rfl
  | cons s L ih =>
    cases L with
    | nil => rfl
    | cons t L' =>
      rw [show appendLast c (s :: t :: L') = s :: appendLast c (t :: L') from rfl]
      rw [lastElem_cons_of_ne_nil s (appendLast_ne_nil c (t :: L'))]
      rw [show lastElem (s :: t :: L') = lastElem (t :: L') from rfl]
      exact ih

/-- The last field of a split is the maximal separator-free run at the end
of the text. -/
theorem lastElem_split (sep : Char) (l : List Char) :
    lastElem (splitOnChar sep l) = (l.reverse.takeWhile (fun c => c ≠ sep)).reverse := by
  induction l using List.reverseRecOn with
  | nil => rfl
  | append_singleton l c ih =>
    by_cases hc : c = sep
    · subst hc
      rw [splitOnChar_append_sep, lastElem_append_single]
      simp
    · rw [splitOnChar_append_char sep c hc, lastElem_appendLast, ih]
      simp [hc]

/-- Tail extraction skips a head element when the rest is non-empty. -/
theorem getLast?_cons_of_ne_nil {α : Type} (s : α) {Y : List α} (h : Y ≠ []) :
    (s :: Y).getLast? = Y.getLast? := by
  cases Y with
  | nil => exact absurd rfl h
  | cons a Y' => exact List.getLast?_cons_cons

/-- Appending a character to the last field makes it non-empty, so it is
the last surviving field after dropping empties. -/
theorem getLast?_filter_appendLast (c : Char) (L : List (List Char)) :
    (((appendLast c L).filter (fun seg => seg ≠ [])).getLast?) = some (lastElem L ++ [c]) := by
  induction L with
  | nil => simp [appendLast, lastElem]
  | cons s L ih =>
    cases L with
    | nil =>
      show (([s ++ [c]].filter (fun seg => seg ≠ [])).getLast?) = some (s ++ [c])
      simp
    | cons t L' =>
      rw [show appendLast c (s :: t :: L') = s :: appendLast c (t :: L') from rfl]
      rw [List.filter_cons]
      have hne : ((appendLast c (t :: L')).filter (fun seg => seg ≠ [])) ≠ [] := by
        intro he
        rw [he] at ih
        simp at ih
      by_cases hs : s = []
      · rw [if_neg (by simp [hs])]
        exact ih
      · rw [if_pos (by simp [hs])]
        rw [getLast?_cons_of_ne_nil s hne]
        exact ih

/-- Code/spec agreement for the last non-empty segment: splitting on
slashes, dropping empty segments and taking the last one equals reading
the maximal slash-free run from the right after skipping trailing
slashes. -/
theorem lastSeg_eq (l : List Char) :
    ((splitOnChar '/' l).filter (fun seg => seg ≠ [])).getLast?
      = if ((l.reverse.dropWhile (fun c => c = '/')).takeWhile (fun c => c ≠ '/')) = [] then none
        else some ((l.reverse.dropWhile (fun c => c = '/')).takeWhile (fun c => c ≠ '/')).reverse := by
  induction l using List.reverseRecOn with
  | nil => rfl
  | append_singleton l c ih =>
    by_cases hc : c = '/'
    · subst hc
      rw [splitOnChar_append_sep]
      have hfilter : ((splitOnChar '/' l ++ [[]]).filter (fun seg => seg ≠ []))
          = (splitOnChar '/' l).filter (fun seg => seg ≠ []) := by
        simp
      rw [hfilter]
      have hrev : ((l ++ ['/']).reverse) = '/' :: l.reverse := by simp
      rw [hrev]
      have hdrop : List.dropWhile (fun b => b = '/') ('/' :: l.reverse)
          = List.dropWhile (fun b => b = '/') l.reverse := by
        simp
      rw [hdrop]
      exact ih
    · rw [splitOnChar_append_char '/' c hc, getLast?_filter_appendLast, lastElem_split]
      have hrev : ((l ++ [c]).reverse) = c :: l.reverse := by simp
      rw [hrev]
      have hdrop : List.dropWhile (fun b => b = '/') (c :: l.reverse) = c :: l.reverse := by
        simp [hc]
      rw [hdrop]
      have htake : List.takeWhile (fun b => b ≠ '/') (c :: l.reverse)
          = c :: List.takeWhile (fun b => b ≠ '/') l.reverse := by
        simp [hc]
      rw [htake]
      simp

/-- Head/tail decomposition of splitting: the first field is the maximal
separator-free run, and the rest of the fields split the text after the
first separator. -/
theorem splitOnChar_decomp (sep : Char) (l : List Char) :
    splitOnChar sep l
      = l.takeWhile (fun c => c ≠ sep)
        :: (match l.dropWhile (fun c => c ≠ sep) with
            | [] => []
            | _ :: rest => splitOnChar sep rest) := by
  induction l with
  | nil => rfl
  | cons c rest ih =>
    rw [splitOnChar]
    by_cases hc : c = sep
    · have ht : List.takeWhile (fun b => b ≠ sep) (c :: rest) = [] := by simp [hc]
      have hd : List.dropWhile (fun b => b ≠ sep) (c :: rest) = c :: rest := by simp [hc]
      rw [ht, hd]
      cases h : splitOnChar sep rest with
      | nil => exact absurd h (splitOnChar_ne_nil sep rest)
      | cons f o => simp [hc, h]
    · have ht : List.takeWhile (fun b => b ≠ sep) (c :: rest)
          = c :: List.takeWhile (fun b => b ≠ sep) rest := by simp [hc]
      have hd : List.dropWhile (fun b => b ≠ sep) (c :: rest)
          = List.dropWhile (fun b => b ≠ sep) rest := by simp [hc]
      rw [ht, hd]
      cases h : splitOnChar sep rest with
      | nil => exact absurd h (splitOnChar_ne_nil sep rest)
      | cons f o =>
        rw [h] at ih
        injection ih with h1 h2
        simp [hc, h1, h2]

/-- Specialisation of the decomposition: no separator in the text. -/
theorem splitOnChar_eq_single (sep : Char) (l : List Char)
    (hd : l.dropWhile (fun c => c ≠ sep) = []) :
    splitOnChar sep l = [l.takeWhile (fun c => c ≠ sep)] := by
  rw [splitOnChar_decomp, hd]

/-- Specialisation of the decomposition: a separator occurs. -/
theorem splitOnChar_eq_cons (sep : Char) (l : List Char) (x : Char) (rest : List Char)
    (hd : l.dropWhile (fun c => c ≠ sep) = x :: rest) :
    splitOnChar sep l = l.takeWhile (fun c => c ≠ sep) :: splitOnChar sep rest := by
  rw [splitOnChar_decomp, hd]

/-- Code/spec agreement for the media subtype: the field between the first
and second slash (with png for missing or empty) equals the slash-free run
right after the first slash (with png for missing or empty). -/
theorem subtype_agrees (b : String) : subtypeOfBlobType b = subtypeSpec b := by
  cases hd : b.data.dropWhile (fun c => c ≠ '/') with
  | nil =>
    rw [subtypeOfBlobType, subtypeSpec, splitOnChar_eq_single '/' b.data hd, hd]
    rfl
  | cons x rest =>
    rw [subtypeOfBlobType, subtypeSpec, splitOnChar_eq_cons '/' b.data x rest hd, hd,
      splitOnChar_decomp '/' rest]
    rw [if_neg (by simp)]
    simp only [List.tail_cons]

/-- CLAIM C8: the download filename is the last non-empty segment of the
URL path when one exists, and otherwise `generated-image.` followed by the
media subtype of the fetched content, with `png` when no subtype is
available. The general statement matches the code-side derivation
(`split/filter(Boolean)/pop` and `type.split("/")[1] || "png"`) against
independent right-to-left formulations, and both concrete examples of the
claim are evaluated. -/
theorem claim_C8_filename :
    (∀ pathname blobType : String,
      deriveFilename pathname blobType
        = match lastNonEmptySegmentSpec pathname with
          | some seg => seg
          | none => "generated-image." ++ subtypeSpec blobType)
    ∧ deriveFilename "/gen/abc.jpg" "image/jpeg" = "abc.jpg"
    ∧ deriveFilename "/" "image/webp" = "generated-image.webp" := by
  refine ⟨?_, by decide, by decide⟩
  intro p b
  by_cases ht : ((p.data.reverse.dropWhile (fun c => c = '/')).takeWhile (fun c => c ≠ '/')) = []
  · have h1 : lastNonEmptySegOfPath p = none := by
      rw [lastNonEmptySegOfPath, lastSeg_eq p.data, if_pos ht]
      rfl
    have h2 : lastNonEmptySegmentSpec p = none := by
      rw [lastNonEmptySegmentSpec, if_pos ht]
    rw [deriveFilename, h1, h2, subtype_agrees]
  · have h1 : lastNonEmptySegOfPath p
        = some (String.mk ((p.data.reverse.dropWhile (fun c => c = '/')).takeWhile
            (fun c => c ≠ '/')).reverse) := by
      rw [lastNonEmptySegOfPath, lastSeg_eq p.data, if_neg ht]
      rfl
    have h2 : lastNonEmptySegmentSpec p
        = some (String.mk ((p.data.reverse.dropWhile (fun c => c = '/')).takeWhile
            (fun c => c ≠ '/')).reverse) := by
      rw [lastNonEmptySegmentSpec, if_neg ht]
    rw [deriveFilename, h1, h2]

/-- CLAIM C7 (counterexample): the claim says a string `detail` field is
surfaced exactly; but the empty string is falsy, so a body with
`detail = ""` surfaces the generic `"Failed to generate content."` rather
than the empty detail string. -/
theorem claim_C7_counterexample :
    surfacedError [("detail", JVal.str "")] = "Failed to generate content."
    ∧ ("Failed to generate content." : String) ≠ "" := by
  exact ⟨by decide, by decide⟩

/-- CLAIM C7 (amended): for a non-2xx response whose parsed body carries a
string field `detail`, the surfaced message is exactly that string when it
is non-empty, and the generic `"Failed to generate content."` when it is
empty (falsy); when `detail` is absent the generic message is surfaced.
The last conjunct ties the message to the submission flow: on the non-2xx
path the toast carries exactly this surfaced message. -/
theorem claim_C7_amended (fs : List (String × JVal)) :
    (jsLookup fs "detail" = none → surfacedError fs = "Failed to generate content.")
    ∧ (∀ s : String, jsLookup fs "detail" = some (JVal.str s) →
        surfacedError fs = if s = "" then "Failed to generate content." else s)
    ∧ (∀ st : ViewState, (runSubmit st (FetchOutcome.httpError fs)).2 = surfacedError fs) := by
  refine ⟨?_, ?_, fun st => rfl⟩
  · intro h
    simp [surfacedError, h, jsToString]
  · intro s h
    by_cases hs : s = ""
    · simp [surfacedError, h, hs, jsTruthy, jsToString]
    · simp [surfacedError, h, hs, jsTruthy, jsToString]

/-- CLAIM C7 (amended) witness: the concrete example of the claim, a body whose
`detail` field is the string `"quota exceeded"` surfaces exactly `"quota exceeded"`. -/
theorem claim_C7_amended_witness :
    surfacedError [("detail", JVal.str "quota exceeded")] = "quota exceeded" := by
  have h := (claim_C7_amended [("detail", JVal.str "quota exceeded")]).2.1 "quota exceeded" rfl
  simpa using h

/-- CLAIM C9: on every failing submission (network error or non-2xx
response) the final view state carries no result: the previous result was
cleared at the start of the submission and the error path never stores a
new one; the loading flag ends false. -/
theorem claim_C9_failure_clears_result (st : ViewState) (o : FetchOutcome)
    (h : isFailureOutcome o = true) :
    (runSubmit st o).1.result = none ∧ (runSubmit st o).1.loading = false := by
  cases o with
  | netError m => exact ⟨rfl, rfl⟩
  | httpError b => exact ⟨rfl, rfl⟩
  | success r => simp [isFailureOutcome] at h

/-- CLAIM C9 witness: a state holding a previously displayed result loses
it on a failing submission. -/
theorem claim_C9_witness :
    (runSubmit
        { loading := false,
          result := some { url := "https://e.com/a", content_type := "blog",
                           image_url := none, content := "old content" } }
        (FetchOutcome.netError "network down")).1.result = none
    ∧ (runSubmit
        { loading := false,
          result := some { url := "https://e.com/a", content_type := "blog",
                           image_url := none, content := "old content" } }
        (FetchOutcome.netError "network down")).1.loading = false :=
  claim_C9_failure_clears_result _ _ rfl
